import Mathlib

/-
Verification development for fetch_and_publish.py: a batch job that fetches
RSS/Atom feeds, classifies entries as new within a rolling 24-hour window
against a persisted seen-state mapping, writes a filtered RSS document per
feed, and updates the seen-state.

Modelling conventions:
  - A point in time is an integer number of seconds on the UTC timeline
    (type Instant).  Aware Python datetimes compare by instant, which this
    captures exactly.
  - The external lenient date parser (dateutil.parser.parse) is an abstract
    parameter of type String -> Option ParsedDate; a ParsedDate records the
    civil reading of the string and an optional UTC offset (none = naive).
    Returning none models the parser raising an exception.
  - feedparser time tuples (published_parsed, updated_parsed) are lists of
    integers; datetime(*v[:6], tzinfo=utc) is modelled by structToInstant,
    with Python datetime validity checks (None result models the raised
    exception).
  - JSON dictionaries are association lists with Python dict semantics:
    insertion overwrites in place, otherwise appends.
-/

abbrev Instant := Int

/-- The 24-hour lookback window, DELTA = timedelta(hours=24), in seconds. -/
def DELTA : Int := 24 * 60 * 60

/-- Result of the lenient string date parser: the civil time the string
denotes (as seconds on a timeline with no offset applied) and an optional
timezone offset in seconds (none models a naive datetime). -/
structure ParsedDate where
  civil : Int
  tzOffset : Option Int
deriving DecidableEq

/-- Normalization applied by the source to a parsed datetime: a naive value
is assumed UTC (dt.replace with tzinfo utc); an aware value is converted
with astimezone to UTC, giving instant civil - offset. -/
def normalizeParsed (pd : ParsedDate) : Instant :=
  match pd.tzOffset with
  | none => pd.civil
  | some off => pd.civil - off

/-- Python truthiness of an optional string field: present and non-empty. -/
def strTruthy : Option String → Bool
  | none => false
  | some s => decide (s ≠ "")

/-- Gregorian leap year test. -/
def isLeapYear (y : Nat) : Bool :=
  y % 4 == 0 && (y % 100 != 0 || y % 400 == 0)

/-- Days in a month of the proleptic Gregorian calendar. -/
def daysInMonth (y m : Nat) : Nat :=
  if m == 2 then (if isLeapYear y then 29 else 28)
  else if m == 4 || m == 6 || m == 9 || m == 11 then 30
  else 31

/-- Cumulative day count before the given month in a non-leap year,
indexed by month number 1..12. -/
def cumDaysBeforeMonth (m : Nat) : Nat :=
  [0, 0, 31, 59, 90, 120, 151, 181, 212, 243, 273, 304, 334].getD m 0

/-- Day number (0-based, days since 0001-01-01) of a Gregorian civil date
with year at least 1. -/
def daysFromCivil (y m d : Nat) : Nat :=
  365 * (y - 1) + (y - 1) / 4 + (y - 1) / 400 - (y - 1) / 100
    + cumDaysBeforeMonth m
    + (if m > 2 && isLeapYear y then 1 else 0)
    + (d - 1)

/-- Number of days from 0001-01-01 to the epoch 1970-01-01. -/
def epochDayNumber : Nat := 719162

/-- Model of datetime(*v[:6], tzinfo=timezone.utc) on the first six elements
of a feedparser time tuple: interprets the components as UTC civil time.
Returns none when the constructor would raise (fewer than six components or
components out of the ranges Python datetime accepts). -/
def structToInstant (l : List Int) : Option Instant :=
  match l.take 6 with
  | [y, m, d, h, mi, s] =>
    if 1 ≤ y ∧ y ≤ 9999 ∧ 1 ≤ m ∧ m ≤ 12 ∧ 1 ≤ d ∧
       d ≤ (daysInMonth y.toNat m.toNat : Int) ∧
       0 ≤ h ∧ h ≤ 23 ∧ 0 ≤ mi ∧ mi ≤ 59 ∧ 0 ≤ s ∧ s ≤ 59 then
      some ((((daysFromCivil y.toNat m.toNat d.toNat : Int) - (epochDayNumber : Int)) * 86400)
        + h * 3600 + mi * 60 + s)
    else none
  | _ => none

/-- Inverse civil conversion: instant day number (days since the epoch,
possibly negative) to a Gregorian civil date (year, month, day). -/
def civilFromDays (z : Int) : Int × Nat × Nat :=
  let za := z + 719468
  let era := za.ediv 146097
  let doe := (za.emod 146097).toNat
  let yoe := (doe - doe / 1460 + doe / 36524 - doe / 146096) / 365
  let doy := doe - (365 * yoe + yoe / 4 - yoe / 100)
  let mp := (5 * doy + 2) / 153
  let d := doy - (153 * mp + 2) / 5 + 1
  let m := if mp < 10 then mp + 3 else mp - 9
  ((yoe : Int) + era * 400 + (if m ≤ 2 then 1 else 0), m, d)

/-- Left-pads the decimal rendering of a natural number with zeros. -/
def padNum (w n : Nat) : String :=
  let s := toString n
  String.mk (List.replicate (w - s.length) '0') ++ s

/-- Rendering of a year, padded to four digits, with a sign when negative. -/
def padYear (y : Int) : String :=
  if y < 0 then "-" ++ padNum 4 (-y).toNat else padNum 4 y.toNat

/-- Model of datetime.isoformat() on an aware UTC datetime with zero
microseconds: YYYY-MM-DDTHH:MM:SS+00:00. -/
def isoformat (t : Instant) : String :=
  let days := t.ediv 86400
  let secs := (t.emod 86400).toNat
  let c := civilFromDays days
  padYear c.1 ++ "-" ++ padNum 2 c.2.1 ++ "-" ++ padNum 2 c.2.2 ++ "T" ++
    padNum 2 (secs / 3600) ++ ":" ++ padNum 2 (secs % 3600 / 60) ++ ":" ++
    padNum 2 (secs % 60) ++ "+00:00"

/-- The parsed representation of one feed item: an unordered bag of optional
fields as produced by feedparser.  String fields are Option String (none
models a missing key); time-tuple fields are optional lists of integers. -/
structure RawEntry where
  id : Option String := none
  guid : Option String := none
  link : Option String := none
  title : Option String := none
  summary : Option String := none
  description : Option String := none
  published : Option String := none
  updated : Option String := none
  pubDate : Option String := none
  date : Option String := none
  published_parsed : Option (List Int) := none
  updated_parsed : Option (List Int) := none
deriving DecidableEq

/-- Identity resolution from the source: prefer a truthy id, then guid, then
link, then the composed string title || published-or-updated. -/
def parse_entry_id (e : RawEntry) : String :=
  if strTruthy e.id then e.id.getD ""
  else if strTruthy e.guid then e.guid.getD ""
  else if strTruthy e.link then e.link.getD ""
  else
    (e.title.getD "") ++ "||" ++
      (if strTruthy e.published then e.published.getD "" else e.updated.getD "")

/-- The first structured-time loop of parse_entry_date: for each time-tuple
field in order, skip falsy values, attempt the datetime construction, return
the first success. -/
def tryStructFields : List (Option (List Int)) → Option Instant
  | [] => none
  | v :: rest =>
    match v with
    | none => tryStructFields rest
    | some l =>
      if l.isEmpty then tryStructFields rest
      else
        match structToInstant l with
        | some dt => some dt
        | none => tryStructFields rest

/-- The string-field loop of parse_entry_date: for each string field in
order, skip falsy values, run the lenient parser, and on success normalize
to UTC (naive assumed UTC) and return. -/
def tryStringFields (lenient : String → Option ParsedDate) :
    List (Option String) → Option Instant
  | [] => none
  | v :: rest =>
    match v with
    | none => tryStringFields lenient rest
    | some s =>
      if s = "" then tryStringFields lenient rest
      else
        match lenient s with
        | some pd => some (normalizeParsed pd)
        | none => tryStringFields lenient rest

/-- Timestamp resolution from the source: structured published and updated
time tuples first, then the string fields published, updated, pubDate, date
through the lenient parser; none when nothing is usable. -/
def parse_entry_date (lenient : String → Option ParsedDate) (e : RawEntry) :
    Option Instant :=
  match tryStructFields [e.published_parsed, e.updated_parsed] with
  | some dt => some dt
  | none => tryStringFields lenient [e.published, e.updated, e.pubDate, e.date]

/-- Persisted seen-state: a JSON object modelled as an association list from
identity to stamp string, in insertion order, with Python dict semantics. -/
abbrev SeenRecord := List (String × String)

/-- Dictionary lookup: first binding of the key, none when absent. -/
def lookupSR : SeenRecord → String → Option String
  | [], _ => none
  | (k, v) :: rest, q => if k = q then some v else lookupSR rest q

/-- Dictionary assignment: overwrites the value in place when the key is
present, otherwise appends a new binding (Python dict insertion order). -/
def insertSR : SeenRecord → String → String → SeenRecord
  | [], q, w => [(q, w)]
  | (k, v) :: rest, q, w =>
    if k = q then (q, w) :: rest else (k, v) :: insertSR rest q w

/-- Possible states of the seen-state file as observed by load_last_seen:
absent (os.path.exists false), unreadable (open raises), malformed (the
JSON decoder raises), or readable with a valid mapping. -/
inductive FileState where
  | absent
  | unreadable
  | malformed
  | valid (m : SeenRecord)
deriving DecidableEq

/-- Model of load_last_seen: empty mapping when the file is absent, or when
reading or decoding raises; otherwise the decoded mapping.  Total, so it
never propagates an exception. -/
def load_last_seen : FileState → SeenRecord
  | .absent => []
  | .unreadable => []
  | .malformed => []
  | .valid m => m

/-- The item dictionary appended to new_items in process_feed: identity,
passthrough title and link, the summary-or-description-or-empty string, and
the resolved date or now. -/
structure FeedItem where
  id : String
  title : Option String
  link : Option String
  summary : String
  published : Instant
deriving DecidableEq

/-- One item element of the output RSS document; each field is present
exactly when the corresponding subelement is created. -/
structure RssItem where
  title : Option String
  link : Option String
  guid : Option String
  pubDate : Option String
  description : Option String
deriving DecidableEq

/-- The output RSS document: channel metadata and the item list. -/
structure RssDoc where
  title : String
  link : String
  description : String
  lastBuildDate : String
  items : List RssItem
deriving DecidableEq

/-- The per-item body of build_rss_xml: a subelement is created only for a
truthy source value.  The published value of every constructed item is a
datetime, which is always truthy, so pubDate is always created; astimezone
on an aware datetime cannot raise, so the fallback branch is unreachable. -/
def itemToRss (it : FeedItem) : RssItem :=
  { title := if strTruthy it.title then it.title else none
    link := if strTruthy it.link then it.link else none
    guid := if it.id ≠ "" then some it.id else none
    pubDate := some (isoformat it.published)
    description := if it.summary ≠ "" then some it.summary else none }

/-- Model of build_rss_xml: a minimal RSS 2.0 document with channel title,
link, derived description, a build date, and one item per input in order.
The build date string stands for datetime.now(utc).astimezone().isoformat(),
passed in by the caller since it depends on the local offset. -/
def build_rss_xml (channel_title channel_link : String) (items : List FeedItem)
    (buildDate : String) : RssDoc :=
  { title := channel_title
    link := channel_link
    description := "Daily feed: " ++ channel_title
    lastBuildDate := buildDate
    items := items.map itemToRss }

/-- The novelty classification inlined in the entry loop of process_feed:
unseen identities are new when dateless or when the date is at or after the
cutoff; seen identities are new only when the stored stamp parses, the entry
has a date strictly after the parsed stored value, and that date is at or
after the cutoff.  A parser failure on the stored stamp (the except branch)
leaves is_new false. -/
def classifyEntry (lenient : String → Option ParsedDate) (last_seen : SeenRecord)
    (cutoff : Instant) (eid : String) (edate : Option Instant) : Bool :=
  match lookupSR last_seen eid with
  | none =>
    match edate with
    | some d => decide (cutoff ≤ d)
    | none => true
  | some stored_iso =>
    match lenient stored_iso with
    | none => false
    | some pd =>
      match edate with
      | some d => decide (normalizeParsed pd < d) && decide (cutoff ≤ d)
      | none => false

/-- The stamp written to updated_last_seen for an entry: the isoformat of
the resolved date, else the truthy published or updated string field, else
the isoformat of now. -/
def stampOf (lenient : String → Option ParsedDate) (now : Instant)
    (e : RawEntry) : String :=
  match parse_entry_date lenient e with
  | some d => isoformat d
  | none =>
    if strTruthy e.published then e.published.getD ""
    else if strTruthy e.updated then e.updated.getD ""
    else isoformat now

/-- The item dictionary built for a novel entry (the new_items append):
identity, passthrough title and link, summary or description or the empty
string, and the resolved date or now. -/
def mkFeedItem (lenient : String → Option ParsedDate) (now : Instant)
    (e : RawEntry) : FeedItem :=
  { id := parse_entry_id e
    title := e.title
    link := e.link
    summary := if strTruthy e.summary then e.summary.getD ""
               else if strTruthy e.description then e.description.getD ""
               else ""
    published := (parse_entry_date lenient e).getD now }

/-- The body of the entry loop of process_feed: classify against the loaded
seen-state, append the item dictionary when new, and always assign the stamp
for the identity in the updated mapping. -/
def stepEntry (lenient : String → Option ParsedDate) (now cutoff : Instant)
    (last_seen : SeenRecord) (acc : List FeedItem × SeenRecord) (e : RawEntry) :
    List FeedItem × SeenRecord :=
  let eid := parse_entry_id e
  let edate := parse_entry_date lenient e
  let is_new := classifyEntry lenient last_seen cutoff eid edate
  (if is_new then acc.1 ++ [mkFeedItem lenient now e] else acc.1,
   insertSR acc.2 eid (stampOf lenient now e))

/-- Result of one successful run of process_feed for one feed: the novel
items, the updated seen-state that is saved, and the document written to the
output file. -/
structure ProcResult where
  new_items : List FeedItem
  updated_last_seen : SeenRecord
  outputDoc : RssDoc
deriving DecidableEq

/-- Model of the successful path of process_feed after fetch and parse:
iterate the entry loop over the parsed entries starting from a copy of the
loaded seen-state, then write the output document (built from new_items when
non-empty, from the empty list otherwise) and save the updated mapping. -/
def process_feed (lenient : String → Option ParsedDate) (now : Instant)
    (buildDate : String) (feed_key feed_url : String) (entries : List RawEntry)
    (last_seen : SeenRecord) : ProcResult :=
  let cutoff := now - DELTA
  let res := entries.foldl (stepEntry lenient now cutoff last_seen) ([], last_seen)
  let doc :=
    if !res.1.isEmpty then
      build_rss_xml ("daily_" ++ feed_key) feed_url res.1 buildDate
    else
      build_rss_xml ("daily_" ++ feed_key) feed_url [] buildDate
  { new_items := res.1, updated_last_seen := res.2, outputDoc := doc }

/-- One configured feed source. -/
structure FeedCfg where
  key : String
  url : String
deriving DecidableEq

/-- The statically configured feeds. -/
def FEEDS : List FeedCfg :=
  [{ key := "bd", url := "https://evilgodfahim.github.io/bd/articles.xml" },
   { key := "master", url := "https://evilgodfahim.github.io/Longreads/filtered.xml" }]

/-- Model of process_feed including the fetch stage: a failed fetch (none)
returns False and touches nothing; otherwise the feed is processed and the
call returns True.  The fetched value stands for the entry list produced by
feedparser on the fetched bytes (feedparser itself does not raise). -/
def process_feed_full (lenient : String → Option ParsedDate) (now : Instant)
    (buildDate : String) (cfg : FeedCfg) (fetched : Option (List RawEntry))
    (seen : SeenRecord) : Option ProcResult :=
  match fetched with
  | none => none
  | some entries =>
    some (process_feed lenient now buildDate cfg.key cfg.url entries seen)

/-- Model of main (named mainRun since Lean reserves the name main): iterate all configured feeds, process each, accumulate
any_ok with a boolean or, and exit 1 when no feed succeeded, 0 otherwise.
The second component records the feeds actually processed, in order. -/
def mainRun (lenient : String → Option ParsedDate) (now : Instant)
    (buildDate : String) (fetch : FeedCfg → Option (List RawEntry))
    (seenOf : FeedCfg → SeenRecord) (feeds : List FeedCfg) :
    Nat × List FeedCfg :=
  let r := feeds.foldl
    (fun acc f =>
      (acc.1 || (process_feed_full lenient now buildDate f (fetch f) (seenOf f)).isSome,
       acc.2 ++ [f]))
    (false, [])
  (if r.1 then 0 else 1, r.2)

/-- The seen-state update step of the entry loop in isolation: assign the
stamp of the entry to its identity. -/
def insStamp (lenient : String → Option ParsedDate) (now : Instant)
    (m : SeenRecord) (e : RawEntry) : SeenRecord :=
  insertSR m (parse_entry_id e) (stampOf lenient now e)

/-- Spec wording, identity resolution: the first non-empty candidate wins. -/
def firstNonEmptyStr : List String → Option String
  | [] => none
  | s :: rest => if s ≠ "" then some s else firstNonEmptyStr rest

/-- Modelled from the wording of the spec, section 4.1: identity is the
first non-empty of explicit id, guid, link; otherwise the title joined with
the published-or-updated string field by the literal separator. -/
def identity_spec (e : RawEntry) : String :=
  match firstNonEmptyStr [e.id.getD "", e.guid.getD "", e.link.getD ""] with
  | some s => s
  | none =>
    (e.title.getD "") ++ "||" ++
      (match firstNonEmptyStr [e.published.getD "", e.updated.getD ""] with
       | some s => s
       | none => "")

/-- First defined value in a list of optional instants. -/
def firstSome : List (Option Instant) → Option Instant
  | [] => none
  | o :: rest =>
    match o with
    | some x => some x
    | none => firstSome rest

/-- Spec wording, one structured-time candidate: a present, truthy time
tuple interpreted as UTC civil components, unusable values yielding none. -/
def specStructCandidate (v : Option (List Int)) : Option Instant :=
  match v with
  | none => none
  | some l => if l.isEmpty then none else structToInstant l

/-- Spec wording, one string-field candidate: a present, non-empty string
run through the lenient parser, the result normalized to UTC with a naive
time assumed UTC. -/
def specStringCandidate (lenient : String → Option ParsedDate)
    (v : Option String) : Option Instant :=
  match v with
  | none => none
  | some s => if s = "" then none else (lenient s).map normalizeParsed

/-- Modelled from the wording of the spec, section 4.1: timestamp resolution
in strict precedence order, first success wins, over structured published,
structured updated, then the published, updated, pubDate, date strings. -/
def resolve_timestamp_spec (lenient : String → Option ParsedDate)
    (e : RawEntry) : Option Instant :=
  firstSome
    [specStructCandidate e.published_parsed,
     specStructCandidate e.updated_parsed,
     specStringCandidate lenient e.published,
     specStringCandidate lenient e.updated,
     specStringCandidate lenient e.pubDate,
     specStringCandidate lenient e.date]

/-- Modelled from the wording of the spec, section 4.3: the novelty decision
table over the current seen-state, current time now, the fixed 24-hour
window, identity and optional timestamp of one entry. -/
def spec_decision (lenient : String → Option ParsedDate) (seen : SeenRecord)
    (now : Instant) (eid : String) (ts : Option Instant) : Bool :=
  match lookupSR seen eid with
  | none =>
    match ts with
    | none => true
    | some t => decide (now - 24 * 60 * 60 ≤ t)
  | some stored =>
    match lenient stored, ts with
    | some pd, some t =>
      decide (normalizeParsed pd < t) && decide (now - 24 * 60 * 60 ≤ t)
    | _, _ => false

/-- Concrete lenient parser for the worked examples: two entry date strings
and the stamps the run itself writes. -/
def lenCX : String → Option ParsedDate := fun s =>
  if s = "a" then some { civil := 150000, tzOffset := some 0 }
  else if s = "b" then some { civil := 100000, tzOffset := some 0 }
  else if s = isoformat 100000 then some { civil := 100000, tzOffset := some 0 }
  else if s = isoformat 150000 then some { civil := 150000, tzOffset := none }
  else none

/-- Worked example entry: link identity L, date string resolving to 150000. -/
def eA : RawEntry := { link := some "L", published := some "a" }

/-- Worked example entry: the same identity L, date string resolving to the
older instant 100000. -/
def eB : RawEntry := { link := some "L", published := some "b" }

/-- A lenient parser that fails on every string. -/
def lenNone : String → Option ParsedDate := fun _ => none

/-- Worked example entry carrying no date field of any kind. -/
def entryND : RawEntry := { link := some "http://x" }

lemma strTruthy_iff (o : Option String) : strTruthy o = true ↔ o.getD "" ≠ "" := by
  cases o <;> simp [strTruthy]

lemma strTruthy_some (o : Option String) (h : strTruthy o = true) :
    o = some (o.getD "") ∧ o.getD "" ≠ "" := by
  cases o with
  | none => simp [strTruthy] at h
  | some s => simpa [strTruthy] using h

/-- C3: for every RawEntry, parse_entry_id picks the identity by strict
precedence with the first non-empty candidate winning (explicit id, then
guid, then link, then title joined to the published-or-updated string by
the literal separator), and repeated calls on the same entry agree. -/
theorem parse_entry_id_matches_spec_precedence (e : RawEntry) :
    parse_entry_id e = identity_spec e ∧ parse_entry_id e = parse_entry_id e := by
  refine ⟨?_, rfl⟩
  have hid := strTruthy_iff e.id
  have hguid := strTruthy_iff e.guid
  have hlink := strTruthy_iff e.link
  have hpub := strTruthy_iff e.published
  unfold parse_entry_id identity_spec firstNonEmptyStr
  by_cases h1 : e.id.getD "" = "" <;>
  by_cases h2 : e.guid.getD "" = "" <;>
  by_cases h3 : e.link.getD "" = "" <;>
  by_cases h4 : e.published.getD "" = "" <;>
  by_cases h5 : e.updated.getD "" = "" <;>
    simp [firstNonEmptyStr, h1, h2, h3, h4, h5, hid, hguid, hlink, hpub]

lemma tryStructFields_eq_firstSome (vs : List (Option (List Int))) :
    tryStructFields vs = firstSome (vs.map specStructCandidate) := by
  induction vs with
  | nil => rfl
  | cons v rest ih =>
    cases v with
    | none => simpa [tryStructFields, firstSome, specStructCandidate] using ih
    | some l =>
      by_cases hl : l.isEmpty
      · simpa [tryStructFields, firstSome, specStructCandidate, hl] using ih
      · cases hs : structToInstant l <;>
          simp [tryStructFields, firstSome, specStructCandidate, hl, hs, ih]

lemma tryStringFields_eq_firstSome (lenient : String → Option ParsedDate)
    (vs : List (Option String)) :
    tryStringFields lenient vs = firstSome (vs.map (specStringCandidate lenient)) := by
  induction vs with
  | nil => rfl
  | cons v rest ih =>
    cases v with
    | none => simpa [tryStringFields, firstSome, specStringCandidate] using ih
    | some s =>
      by_cases hs : s = ""
      · simpa [tryStringFields, firstSome, specStringCandidate, hs] using ih
      · cases hp : lenient s <;>
          simp [tryStringFields, firstSome, specStringCandidate, hs, hp, ih]

/-- C4: parse_entry_date resolves timestamps by strict precedence with the
first success winning: structured published, structured updated, then the
published, updated, pubDate and date strings through the lenient parser,
with structured times read as UTC civil components, naive parsed times
assumed UTC, every result normalized to UTC, and none when nothing works. -/
theorem parse_entry_date_matches_spec_precedence
    (lenient : String → Option ParsedDate) (e : RawEntry) :
    parse_entry_date lenient e = resolve_timestamp_spec lenient e := by
  unfold parse_entry_date resolve_timestamp_spec
  rw [tryStructFields_eq_firstSome, tryStringFields_eq_firstSome]
  simp only [List.map_cons, List.map_nil]
  cases h1 : specStructCandidate e.published_parsed <;>
  cases h2 : specStructCandidate e.updated_parsed <;>
    simp [firstSome, h1, h2]

/-- C1: the inline novelty classification of process_feed, run at cutoff
now - 24h, implements the decision table of the spec exactly: unseen
identities are new when dateless or when the timestamp is at or after the
cutoff (the boundary itself counts as new); seen identities are new only
when the stored stamp parses and the timestamp is strictly after it and at
or after the cutoff, and not new in every other case, including an
unparseable stored stamp. -/
theorem novelty_classification_matches_decision_table
    (lenient : String → Option ParsedDate) (seen : SeenRecord) (now : Instant)
    (eid : String) (ts : Option Instant) :
    classifyEntry lenient seen (now - DELTA) eid ts
      = spec_decision lenient seen now eid ts := by
  unfold classifyEntry spec_decision DELTA
  cases h1 : lookupSR seen eid with
  | none => cases ts <;> simp
  | some stored => cases h2 : lenient stored <;> cases ts <;> simp [h2]

lemma lookupSR_insertSR_self (m : SeenRecord) (k v : String) :
    lookupSR (insertSR m k v) k = some v := by
  induction m with
  | nil => simp [insertSR, lookupSR]
  | cons p rest ih =>
    cases p with
    | mk pk pv =>
      by_cases h : pk = k
      · simp [insertSR, h, lookupSR]
      · simp [insertSR, h, lookupSR, ih]

lemma lookupSR_insertSR_ne (m : SeenRecord) (k v q : String) (h : k ≠ q) :
    lookupSR (insertSR m k v) q = lookupSR m q := by
  induction m with
  | nil => simp [insertSR, lookupSR, h]
  | cons p rest ih =>
    cases p with
    | mk pk pv =>
      by_cases hk : pk = k
      · simp [insertSR, hk, lookupSR, h]
      · simp [insertSR, hk, lookupSR, ih]

lemma lookupSR_insertSR_isSome (m : SeenRecord) (k v q : String)
    (h : (lookupSR m q).isSome = true) :
    (lookupSR (insertSR m k v) q).isSome = true := by
  by_cases hk : k = q
  · subst hk; simp [lookupSR_insertSR_self]
  · rw [lookupSR_insertSR_ne m k v q hk]; exact h

lemma insertSR_eq_self (m : SeenRecord) (k v : String)
    (h : lookupSR m k = some v) : insertSR m k v = m := by
  induction m with
  | nil => simp [lookupSR] at h
  | cons p rest ih =>
    cases p with
    | mk pk pv =>
      by_cases hk : pk = k
      · subst hk
        simp [lookupSR] at h
        simp [insertSR, h]
      · simp [lookupSR, hk] at h
        simp [insertSR, hk, ih h]

lemma foldl_stepEntry_fst (lenient : String → Option ParsedDate)
    (now cutoff : Instant) (seen : SeenRecord) (es : List RawEntry) :
    ∀ (a : List FeedItem) (m : SeenRecord),
      (es.foldl (stepEntry lenient now cutoff seen) (a, m)).1
        = a ++ (es.filter (fun e =>
            classifyEntry lenient seen cutoff (parse_entry_id e)
              (parse_entry_date lenient e))).map (mkFeedItem lenient now) := by
  induction es with
  | nil => intro a m; simp
  | cons e es ih =>
    intro a m
    by_cases h : classifyEntry lenient seen cutoff (parse_entry_id e)
        (parse_entry_date lenient e) = true
    · simp [List.foldl_cons, stepEntry, h, ih, List.filter_cons]
    · simp [List.foldl_cons, stepEntry, h, ih, List.filter_cons]

lemma foldl_stepEntry_snd (lenient : String → Option ParsedDate)
    (now cutoff : Instant) (seen : SeenRecord) (es : List RawEntry) :
    ∀ (a : List FeedItem) (m : SeenRecord),
      (es.foldl (stepEntry lenient now cutoff seen) (a, m)).2
        = es.foldl (insStamp lenient now) m := by
  induction es with
  | nil => intro a m; simp
  | cons e es ih =>
    intro a m
    simp [List.foldl_cons, stepEntry, insStamp, ih]

lemma process_feed_new_items (lenient : String → Option ParsedDate)
    (now : Instant) (bd key url : String) (entries : List RawEntry)
    (seen : SeenRecord) :
    (process_feed lenient now bd key url entries seen).new_items
      = (entries.filter (fun e =>
          classifyEntry lenient seen (now - DELTA) (parse_entry_id e)
            (parse_entry_date lenient e))).map (mkFeedItem lenient now) := by
  unfold process_feed
  simp [foldl_stepEntry_fst]

lemma process_feed_updated (lenient : String → Option ParsedDate)
    (now : Instant) (bd key url : String) (entries : List RawEntry)
    (seen : SeenRecord) :
    (process_feed lenient now bd key url entries seen).updated_last_seen
      = entries.foldl (insStamp lenient now) seen := by
  unfold process_feed
  simp [foldl_stepEntry_snd]

lemma process_feed_outputDoc (lenient : String → Option ParsedDate)
    (now : Instant) (bd key url : String) (entries : List RawEntry)
    (seen : SeenRecord) :
    (process_feed lenient now bd key url entries seen).outputDoc
      = build_rss_xml ("daily_" ++ key) url
          (process_feed lenient now bd key url entries seen).new_items bd := by
  unfold process_feed
  by_cases h : (entries.foldl (stepEntry lenient now (now - DELTA) seen)
      ([], seen)).1.isEmpty
  · simp only [h]
    rw [List.isEmpty_iff] at h
    simp [h]
  · simp only [h]
    simp

lemma lookupSR_foldl_insStamp_isSome (lenient : String → Option ParsedDate)
    (now : Instant) (es : List RawEntry) :
    ∀ (m : SeenRecord) (q : String), (lookupSR m q).isSome = true →
      (lookupSR (es.foldl (insStamp lenient now) m) q).isSome = true := by
  induction es with
  | nil => intro m q h; simpa using h
  | cons e es ih =>
    intro m q h
    rw [List.foldl_cons]
    exact ih _ _ (lookupSR_insertSR_isSome m _ _ q h)

lemma lookupSR_foldl_insStamp_notmem (lenient : String → Option ParsedDate)
    (now : Instant) (es : List RawEntry) :
    ∀ (m : SeenRecord) (q : String), (∀ e ∈ es, parse_entry_id e ≠ q) →
      lookupSR (es.foldl (insStamp lenient now) m) q = lookupSR m q := by
  induction es with
  | nil => intro m q _; rfl
  | cons e es ih =>
    intro m q h
    rw [List.foldl_cons, ih _ _ (fun x hx => h x (List.mem_cons_of_mem _ hx))]
    exact lookupSR_insertSR_ne m _ _ q (h e (List.mem_cons_self _ _))

lemma lookupSR_foldl_insStamp_nodup (lenient : String → Option ParsedDate)
    (now : Instant) (es : List RawEntry) :
    ∀ (m : SeenRecord), (es.map parse_entry_id).Nodup →
      ∀ e ∈ es, lookupSR (es.foldl (insStamp lenient now) m) (parse_entry_id e)
        = some (stampOf lenient now e) := by
  induction es with
  | nil => intro m _ e he; simp at he
  | cons e0 es ih =>
    intro m hnd e he
    rw [List.map_cons, List.nodup_cons] at hnd
    rcases List.mem_cons.mp he with he0 | hes
    · subst he0
      have hne : ∀ x ∈ es, parse_entry_id x ≠ parse_entry_id e := by
        intro x hx hc
        exact hnd.1 (hc ▸ List.mem_map_of_mem parse_entry_id hx)
      rw [List.foldl_cons,
        lookupSR_foldl_insStamp_notmem lenient now es _ _ hne]
      exact lookupSR_insertSR_self m _ _
    · exact ih _ hnd.2 e hes

lemma foldl_insStamp_eq_self (lenient : String → Option ParsedDate)
    (now : Instant) (es : List RawEntry) :
    ∀ (m : SeenRecord),
      (∀ e ∈ es, lookupSR m (parse_entry_id e) = some (stampOf lenient now e)) →
      es.foldl (insStamp lenient now) m = m := by
  induction es with
  | nil => intro m _; rfl
  | cons e0 es ih =>
    intro m h
    rw [List.foldl_cons]
    have h0 : insStamp lenient now m e0 = m :=
      insertSR_eq_self m _ _ (h e0 (List.mem_cons_self _ _))
    rw [h0]
    exact ih m (fun x hx => h x (List.mem_cons_of_mem _ hx))

lemma lookupSR_foldl_insStamp_mem (lenient : String → Option ParsedDate)
    (now : Instant) (es : List RawEntry) :
    ∀ (m : SeenRecord) (e : RawEntry), e ∈ es →
      ∃ et, et ∈ es ∧ parse_entry_id et = parse_entry_id e ∧
        lookupSR (es.foldl (insStamp lenient now) m) (parse_entry_id e)
          = some (stampOf lenient now et) := by
  induction es with
  | nil => intro m e he; simp at he
  | cons e0 es ih =>
    intro m e he
    by_cases hmem : ∃ e2, e2 ∈ es ∧ parse_entry_id e2 = parse_entry_id e
    · rcases hmem with ⟨e2, h2, hid⟩
      rcases ih (insStamp lenient now m e0) e2 h2 with ⟨et, hmem2, hid2, hlk⟩
      refine ⟨et, List.mem_cons_of_mem _ hmem2, hid2.trans hid, ?_⟩
      rw [List.foldl_cons, ← hid]
      exact hlk
    · have hne : ∀ e2 ∈ es, parse_entry_id e2 ≠ parse_entry_id e :=
        fun e2 h2 hc => hmem ⟨e2, h2, hc⟩
      have he0 : parse_entry_id e0 = parse_entry_id e := by
        rcases List.mem_cons.mp he with h | h
        · rw [h]
        · exact absurd ⟨e, h, rfl⟩ hmem
      refine ⟨e0, List.mem_cons_self _ _, he0, ?_⟩
      rw [List.foldl_cons,
        lookupSR_foldl_insStamp_notmem lenient now es _ _ hne, ← he0]
      exact lookupSR_insertSR_self m _ _

/-- C2: for every processed entry, novel or not, process_feed records a
stamp for the identity of that entry in the updated seen-state mapping; the
stamp recorded is the stampOf value (isoformat of the resolved timestamp,
else the published or updated string field, else isoformat of now) of an
entry of the feed with the same identity, so every observed identity ends
with some stamp on file. -/
theorem stamp_recorded_for_every_entry (lenient : String → Option ParsedDate)
    (now : Instant) (bd key url : String) (entries : List RawEntry)
    (seen : SeenRecord) (e : RawEntry) (he : e ∈ entries) :
    ∃ et, et ∈ entries ∧ parse_entry_id et = parse_entry_id e ∧
      lookupSR (process_feed lenient now bd key url entries seen).updated_last_seen
        (parse_entry_id e) = some (stampOf lenient now et) := by
  rw [process_feed_updated]
  exact lookupSR_foldl_insStamp_mem lenient now entries seen e he

/-- Witness for C2 on a concrete one-entry feed. -/
theorem stamp_recorded_for_every_entry_witness :
    ∃ et, et ∈ [eA] ∧ parse_entry_id et = parse_entry_id eA ∧
      lookupSR (process_feed lenCX 200000 "B" "bd" "u" [eA] []).updated_last_seen
        (parse_entry_id eA) = some (stampOf lenCX 200000 et) :=
  stamp_recorded_for_every_entry lenCX 200000 "B" "bd" "u" [eA] [] eA
    (List.mem_singleton.mpr rfl)

/-- C6: on every successful fetch and parse, the output document written is
build_rss_xml applied to the novel items, so it is produced even when there
are zero novel items, and its item list is exactly the novel entries of the
source feed in encounter order, not re-sorted. -/
theorem output_always_written_items_in_order
    (lenient : String → Option ParsedDate) (now : Instant)
    (bd key url : String) (entries : List RawEntry) (seen : SeenRecord) :
    (process_feed lenient now bd key url entries seen).outputDoc
      = build_rss_xml ("daily_" ++ key) url
          (process_feed lenient now bd key url entries seen).new_items bd ∧
    (process_feed lenient now bd key url entries seen).outputDoc.items
      = (entries.filter (fun e =>
          classifyEntry lenient seen (now - DELTA) (parse_entry_id e)
            (parse_entry_date lenient e))).map
          (fun e => itemToRss (mkFeedItem lenient now e)) := by
  refine ⟨process_feed_outputDoc lenient now bd key url entries seen, ?_⟩
  rw [process_feed_outputDoc, build_rss_xml, process_feed_new_items]
  simp [List.map_map]

/-- C10: the seen-state only grows within a run; every key of the loaded
mapping is still a key of the mapping process_feed saves. -/
theorem seen_state_keys_monotone (lenient : String → Option ParsedDate)
    (now : Instant) (bd key url : String) (entries : List RawEntry)
    (seen : SeenRecord) (q : String)
    (h : (lookupSR seen q).isSome = true) :
    (lookupSR (process_feed lenient now bd key url entries seen).updated_last_seen
      q).isSome = true := by
  rw [process_feed_updated]
  exact lookupSR_foldl_insStamp_isSome lenient now entries seen q h

/-- Witness for C10 on a concrete mapping and feed. -/
theorem seen_state_keys_monotone_witness :
    (lookupSR (process_feed lenCX 200000 "B" "bd" "u" [eA]
      [("k0", "v0")]).updated_last_seen "k0").isSome = true :=
  seen_state_keys_monotone lenCX 200000 "B" "bd" "u" [eA] [("k0", "v0")] "k0"
    (by decide)

/-- C7: load_last_seen returns the empty mapping whenever the seen-state
file is absent, unreadable or not valid structured data, without raising
(the model is total), and processing with the recovered state is processing
as if no prior state existed. -/
theorem load_last_seen_recovers_empty (fs : FileState)
    (lenient : String → Option ParsedDate) (now : Instant)
    (bd key url : String) (entries : List RawEntry)
    (h : fs = FileState.absent ∨ fs = FileState.unreadable ∨
         fs = FileState.malformed) :
    load_last_seen fs = [] ∧
    process_feed lenient now bd key url entries (load_last_seen fs)
      = process_feed lenient now bd key url entries [] := by
  rcases h with h | h | h <;> subst h <;> exact ⟨rfl, rfl⟩

/-- Witness for C7 at a malformed seen-state file. -/
theorem load_last_seen_recovers_empty_witness :
    load_last_seen FileState.malformed = [] ∧
    process_feed lenCX 200000 "B" "bd" "u" [eA]
        (load_last_seen FileState.malformed)
      = process_feed lenCX 200000 "B" "bd" "u" [eA] [] :=
  load_last_seen_recovers_empty FileState.malformed lenCX 200000 "B" "bd" "u"
    [eA] (Or.inr (Or.inr rfl))

lemma process_feed_full_isSome (lenient : String → Option ParsedDate)
    (now : Instant) (bd : String) (cfg : FeedCfg)
    (fetched : Option (List RawEntry)) (seen : SeenRecord) :
    (process_feed_full lenient now bd cfg fetched seen).isSome
      = fetched.isSome := by
  cases fetched <;> rfl

lemma mainRun_foldl (lenient : String → Option ParsedDate) (now : Instant)
    (bd : String) (fetch : FeedCfg → Option (List RawEntry))
    (seenOf : FeedCfg → SeenRecord) (feeds : List FeedCfg) :
    ∀ (b : Bool) (l : List FeedCfg),
      (feeds.foldl
        (fun acc f =>
          (acc.1 || (process_feed_full lenient now bd f (fetch f) (seenOf f)).isSome,
           acc.2 ++ [f]))
        (b, l))
      = (b || feeds.any (fun f => (fetch f).isSome), l ++ feeds) := by
  induction feeds with
  | nil => intro b l; simp
  | cons f fs ih =>
    intro b l
    rw [List.foldl_cons, ih]
    simp [process_feed_full_isSome, Bool.or_assoc]

/-- C8: the run driver processes every configured feed in order even when an
earlier one fails, and the exit code is 0 exactly when at least one feed
fetched (and hence parsed and processed) successfully, and 1 exactly when
every configured feed failed to fetch. -/
theorem exit_code_reflects_any_success (lenient : String → Option ParsedDate)
    (now : Instant) (bd : String) (fetch : FeedCfg → Option (List RawEntry))
    (seenOf : FeedCfg → SeenRecord) (feeds : List FeedCfg) :
    (mainRun lenient now bd fetch seenOf feeds).2 = feeds ∧
    ((mainRun lenient now bd fetch seenOf feeds).1 = 0 ↔
      ∃ f ∈ feeds, (fetch f).isSome = true) ∧
    ((mainRun lenient now bd fetch seenOf feeds).1 = 1 ↔
      ∀ f ∈ feeds, (fetch f).isSome = false) := by
  unfold mainRun
  rw [mainRun_foldl]
  simp only [Bool.false_or, List.nil_append]
  refine ⟨trivial, ?_, ?_⟩
  · cases h : feeds.any (fun f => (fetch f).isSome) with
    | false =>
      have hall := List.any_eq_false.mp h
      simp only [h, Bool.false_eq_true, if_false]
      constructor
      · intro hc; omega
      · rintro ⟨f, hf, hs⟩
        exact absurd hs (hall f hf)
    | true =>
      obtain ⟨f, hf, hs⟩ := List.any_eq_true.mp h
      simp only [h, if_true]
      exact ⟨fun _ => ⟨f, hf, hs⟩, fun _ => trivial⟩
  · cases h : feeds.any (fun f => (fetch f).isSome) with
    | false =>
      have hall := List.any_eq_false.mp h
      simp only [h, Bool.false_eq_true, if_false]
      refine ⟨fun _ f hf => ?_, fun _ => trivial⟩
      have := hall f hf
      simpa using this
    | true =>
      obtain ⟨f, hf, hs⟩ := List.any_eq_true.mp h
      simp only [h, if_true]
      constructor
      · intro hc; omega
      · intro hc
        rw [hc f hf] at hs
        cases hs

lemma strTruthy_exists (o : Option String) (h : strTruthy o = true) :
    ∃ s, o = some s ∧ s ≠ "" := by
  cases o with
  | none => simp [strTruthy] at h
  | some s => exact ⟨s, rfl, by simpa [strTruthy] using h⟩

lemma parse_entry_id_ne_empty (e : RawEntry) : parse_entry_id e ≠ "" := by
  unfold parse_entry_id
  by_cases h1 : strTruthy e.id
  · simpa [h1] using (strTruthy_some e.id h1).2
  · by_cases h2 : strTruthy e.guid
    · simpa [h1, h2] using (strTruthy_some e.guid h2).2
    · by_cases h3 : strTruthy e.link
      · simpa [h1, h2, h3] using (strTruthy_some e.link h3).2
      · simp only [h1, h2, h3, Bool.false_eq_true, if_false]
        intro hc
        have hlen := congrArg String.length hc
        simp [String.length_append] at hlen
        exact absurd hlen.1.2 (by decide)

/-- C9 counterexample: an entry with no date field of any kind (so its
resolved timestamp is absent) still produces an output item with a pubDate
element, carrying the isoformat of now, contradicting the claim that such
an item has no pubDate. -/
theorem dateless_entry_pubDate_counterexample :
    parse_entry_date lenNone entryND = none ∧
    (process_feed lenNone 1000 "B" "bd" "u" [entryND] []).outputDoc.items.map
        RssItem.pubDate
      = [some (isoformat 1000)] := by
  exact ⟨rfl, rfl⟩

/-- C9 as amended: every item of the written output document comes from a
source entry; its title, link and description elements are present exactly
when the source entry provides a non-empty value, its guid is always
present (the identity is never empty), and its pubDate is always present,
equal to the isoformat of the resolved timestamp when one exists and of now
otherwise. -/
theorem output_item_field_presence_amended
    (lenient : String → Option ParsedDate) (now : Instant)
    (bd key url : String) (entries : List RawEntry) (seen : SeenRecord)
    (it : RssItem)
    (hit : it ∈ (process_feed lenient now bd key url entries seen).outputDoc.items) :
    ∃ e, e ∈ entries ∧
      it.title = (if strTruthy e.title then e.title else none) ∧
      it.link = (if strTruthy e.link then e.link else none) ∧
      it.guid = some (parse_entry_id e) ∧
      it.pubDate = some (isoformat ((parse_entry_date lenient e).getD now)) ∧
      it.description = (if strTruthy e.summary then e.summary
                        else if strTruthy e.description then e.description
                        else none) := by
  rw [(output_always_written_items_in_order lenient now bd key url entries
    seen).2] at hit
  rcases List.mem_map.mp hit with ⟨e, hef, heq⟩
  have hee : e ∈ entries := (List.mem_filter.mp hef).1
  refine ⟨e, hee, ?_, ?_, ?_, ?_, ?_⟩ <;> rw [← heq]
  · rfl
  · rfl
  · show (if parse_entry_id e ≠ "" then some (parse_entry_id e) else none)
        = some (parse_entry_id e)
    rw [if_pos (parse_entry_id_ne_empty e)]
  · rfl
  · show (if (mkFeedItem lenient now e).summary ≠ "" then
        some (mkFeedItem lenient now e).summary else none) = _
    by_cases h1 : strTruthy e.summary
    · obtain ⟨s, hs, hne⟩ := strTruthy_exists e.summary h1
      have hts : strTruthy (some s) = true := by simp [strTruthy, hne]
      simp [mkFeedItem, hs, hts, hne]
    · have h1f : strTruthy e.summary = false := by simpa using h1
      by_cases h2 : strTruthy e.description
      · obtain ⟨s, hs, hne⟩ := strTruthy_exists e.description h2
        have hts : strTruthy (some s) = true := by simp [strTruthy, hne]
        simp [mkFeedItem, h1f, hs, hts, hne]
      · have h2f : strTruthy e.description = false := by simpa using h2
        simp [mkFeedItem, h1f, h2f]

/-- Witness for the amended C9 on a concrete run whose single item has no
title, no description, a link and a pubDate. -/
theorem output_item_field_presence_witness :
    ∃ e, e ∈ [entryND] ∧
      (itemToRss (mkFeedItem lenNone 1000 entryND)).title
        = (if strTruthy e.title then e.title else none) ∧
      (itemToRss (mkFeedItem lenNone 1000 entryND)).link
        = (if strTruthy e.link then e.link else none) ∧
      (itemToRss (mkFeedItem lenNone 1000 entryND)).guid
        = some (parse_entry_id e) ∧
      (itemToRss (mkFeedItem lenNone 1000 entryND)).pubDate
        = some (isoformat ((parse_entry_date lenNone e).getD 1000)) ∧
      (itemToRss (mkFeedItem lenNone 1000 entryND)).description
        = (if strTruthy e.summary then e.summary
           else if strTruthy e.description then e.description
           else none) :=
  output_item_field_presence_amended lenNone 1000 "B" "bd" "u" [entryND] []
    (itemToRss (mkFeedItem lenNone 1000 entryND)) (by decide)

/-- C5 counterexample: on an unchanged two-entry list in which both entries
share one identity and the later entry carries the older timestamp, the
stamp of the later entry overwrites the newer one, so an immediate second
run classifies the first entry as new again: the second run does not yield
zero novel items. -/
theorem rerun_second_pass_counterexample :
    (process_feed lenCX 200000 "B" "bd" "u" [eA, eB]
      (process_feed lenCX 200000 "B" "bd" "u" [eA, eB] []).updated_last_seen
      ).new_items ≠ [] := by
  decide

/-- C5 as amended: for two runs of process_feed at the same current time on
an unchanged entry list whose identities are pairwise distinct, with the
lenient parser reading back the isoformat stamps the first run writes, the
second run yields zero novel items and writes a seen-state mapping equal to
the mapping written by the first run. -/
theorem rerun_idempotent_of_distinct_ids
    (lenient : String → Option ParsedDate) (now : Instant)
    (bd key url : String) (entries : List RawEntry) (seen : SeenRecord)
    (hnodup : (entries.map parse_entry_id).Nodup)
    (hround : ∀ e ∈ entries, ∀ d, parse_entry_date lenient e = some d →
      ∃ pd, lenient (isoformat d) = some pd ∧ normalizeParsed pd = d) :
    (process_feed lenient now bd key url entries
      (process_feed lenient now bd key url entries seen).updated_last_seen
      ).new_items = [] ∧
    (process_feed lenient now bd key url entries
      (process_feed lenient now bd key url entries seen).updated_last_seen
      ).updated_last_seen
      = (process_feed lenient now bd key url entries seen).updated_last_seen := by
  have hA : ∀ e ∈ entries,
      lookupSR (process_feed lenient now bd key url entries seen).updated_last_seen
        (parse_entry_id e) = some (stampOf lenient now e) := by
    rw [process_feed_updated]
    exact lookupSR_foldl_insStamp_nodup lenient now entries seen hnodup
  have hB : ∀ e ∈ entries,
      classifyEntry lenient
        (process_feed lenient now bd key url entries seen).updated_last_seen
        (now - DELTA) (parse_entry_id e) (parse_entry_date lenient e) = false := by
    intro e he
    cases hd : parse_entry_date lenient e with
    | none =>
      cases h2 : lenient (stampOf lenient now e) <;>
        simp [classifyEntry, hA e he, hd, h2]
    | some d =>
      have hst : stampOf lenient now e = isoformat d := by simp [stampOf, hd]
      obtain ⟨pd, hpd, hnorm⟩ := hround e he d hd
      simp [classifyEntry, hA e he, hst, hpd, hd, hnorm]
  constructor
  · rw [process_feed_new_items]
    have hf : entries.filter (fun e =>
        classifyEntry lenient
          (process_feed lenient now bd key url entries seen).updated_last_seen
          (now - DELTA) (parse_entry_id e) (parse_entry_date lenient e)) = [] :=
      List.filter_eq_nil_iff.mpr (fun e he => by simp [hB e he])
    rw [hf]
    rfl
  · rw [process_feed_updated]
    exact foldl_insStamp_eq_self lenient now entries _ hA

/-- Witness for the amended C5 on a concrete one-entry feed whose parser
reads back the stamp the first run writes. -/
theorem rerun_idempotent_witness :
    (process_feed lenCX 200000 "B" "bd" "u" [eA]
      (process_feed lenCX 200000 "B" "bd" "u" [eA] []).updated_last_seen
      ).new_items = [] ∧
    (process_feed lenCX 200000 "B" "bd" "u" [eA]
      (process_feed lenCX 200000 "B" "bd" "u" [eA] []).updated_last_seen
      ).updated_last_seen
      = (process_feed lenCX 200000 "B" "bd" "u" [eA] []).updated_last_seen :=
  rerun_idempotent_of_distinct_ids lenCX 200000 "B" "bd" "u" [eA] []
    (by decide)
    (by
      intro e he d hd
      have he1 : e = eA := List.mem_singleton.mp he
      subst he1
      have h150 : parse_entry_date lenCX eA = some 150000 := by decide
      rw [h150] at hd
      obtain rfl : (150000 : Int) = d := Option.some.inj hd
      exact ⟨{ civil := 150000, tzOffset := none }, by decide, rfl⟩)
